import Mathlib

/-!
# Union codec of `pkg/cmd/hgctl/plugin/types/marshal.go`

A shallow embedding of the JSON / YAML marshalling methods of the four union
types `JSON`, `JSONSchemaPropsOrArray`, `JSONSchemaPropsOrBool` and
`JSONSchemaPropsOrStringArray`, followed by theorems about them.

Conventions of the embedding.

* A Go `[]byte` is a `List Byte`; the methods only look at the length and the
  content of a byte slice, so the nil and the empty byte slice are identified.
* A Go slice that is stored in a union value (`JSONSchemas`, `Property`) is a
  `Slice`: `none` is the nil slice, `some l` a non-nil slice with elements `l`.
* A Go pointer `*JSONSchemaProps` is an `Option JSONSchemaProps`.
* A Go `error` result is an `Option Error`, `none` being the nil error.
* A pointer-receiver method `func (s *T) UnmarshalJSON(data []byte) error`
  becomes a function from the receiver's value before the call and the input to
  the pair (receiver's value after the call, error).
* The schema type `JSONSchemaProps` is declared outside `marshal.go`; it is a
  type parameter. The calls into `encoding/json` (through
  `k8s.io/apimachinery/pkg/util/json`) and `gopkg.in/yaml.v3` are the fields of
  a `Codec` parameter, one field per call shape used by `marshal.go`.
-/

namespace Types

/-- A byte of a Go byte slice. -/
abbrev Byte := Fin 256

/-- A Go slice held in a struct field: `none` is the nil slice. -/
abbrev Slice (α : Type) := Option (List α)

/-- Go's builtin `len` on a slice: the nil slice has length zero. -/
def len {α : Type} : Slice α → Nat
  | none => 0
  | some l => l.length

/-- A Go error value, with the statement that produced it. `new msg` is an
error made by the `errors.New(msg)` statement of the method under
consideration; `lib msg` is an error handed back by a json / yaml library call
(the nested decode or encode) and returned unchanged. The constructor is
bookkeeping of the embedding: a caller sees an error through its message
(`Error.message`), and a library error can carry any message, the text of the
method's own error included (a nested decode re-enters `UnmarshalJSON` for a
field of a union type). -/
inductive Error where
  | new (msg : String)
  | lib (msg : String)
  deriving DecidableEq, Repr

/-- Go's method `Error() string` of an error value: its message. -/
def Error.message : Error → String
  | .new msg => msg
  | .lib msg => msg

/-- The bytes of the Go string literal "true". -/
def trueBytes : List Byte := [116, 114, 117, 101]

/-- The bytes of the Go string literal "false". -/
def falseBytes : List Byte := [102, 97, 108, 115, 101]

/-- The bytes of the Go string literal "null". -/
def nullBytes : List Byte := [110, 117, 108, 108]

/-- The byte of the character literal that opens a JSON object (0x7b). -/
def lbrace : Byte := 123

/-- The byte of the character literal that opens a JSON array (0x5b). -/
def lbracket : Byte := 91

/-- The library calls `marshal.go` makes, as parameters. `Obj` is the type of
the generic value (`interface` with no methods) the libraries decode into.
An encoder returns Go's pair (bytes, error); a decoder into a fresh variable
returns the decoded value or the library's error. -/
structure Codec (JSONSchemaProps Obj : Type) where
  /-- Encoder call `json.Marshal(p)` for `p` of type `*JSONSchemaProps`. -/
  jsonMarshalSchema : Option JSONSchemaProps → List Byte × Option String
  /-- Decoder call `json.Unmarshal(data, &sch)` for a fresh `sch JSONSchemaProps`. -/
  jsonUnmarshalSchema : List Byte → Except String JSONSchemaProps
  /-- Encoder call `json.Marshal(l)` for `l` of type `[]JSONSchemaProps`. -/
  jsonMarshalSchemas : Slice JSONSchemaProps → List Byte × Option String
  /-- Decoder call `json.Unmarshal(data, &l)` for a fresh nil `l []JSONSchemaProps`. -/
  jsonUnmarshalSchemas : List Byte → Except String (Slice JSONSchemaProps)
  /-- Encoder call `json.Marshal(l)` for `l` of type `[]string`. -/
  jsonMarshalStrings : Slice String → List Byte × Option String
  /-- Decoder call `json.Unmarshal(data, &l)` for a fresh nil `l []string`. -/
  jsonUnmarshalStrings : List Byte → Except String (Slice String)
  /-- Encoder call `json.Marshal(obj)` for a generic value. -/
  jsonMarshalObj : Obj → List Byte × Option String
  /-- Decoder call `json.Unmarshal(data, &obj)` for a fresh generic `obj`. -/
  jsonUnmarshalObj : List Byte → Except String Obj
  /-- Decoder call `yaml.Unmarshal(data, &obj)` for a fresh generic `obj`. -/
  yamlUnmarshalObj : List Byte → Except String Obj
  /-- Encoder call `yaml.Marshal(p)` for `p` of type `*JSONSchemaProps`. -/
  yamlMarshalSchema : Option JSONSchemaProps → List Byte × Option String

/-- The Go pair (value, error) a library encoder returned, as the pair the
calling method returns: the library's error stays a library error. -/
def fromLib {α : Type} (r : α × Option String) : α × Option Error :=
  (r.1, r.2.map Error.lib)

/-- The value a `MarshalYAML` method hands to the YAML encoder (its first
result, of Go type `interface` with no methods), by dynamic type. -/
inductive Value (JSONSchemaProps Obj : Type) where
  | str (s : String)
  | bool (b : Bool)
  | bytes (b : List Byte)
  | schema (p : Option JSONSchemaProps)
  | schemas (l : Slice JSONSchemaProps)
  | strings (l : Slice String)
  | obj (o : Obj)
  deriving DecidableEq, Repr

/-- The struct `JSON`: the raw payload `Raw []byte` read and written by its methods. -/
structure JSON where
  Raw : List Byte := []
  deriving DecidableEq, Repr

/-- The struct `JSONSchemaPropsOrArray`: fields `Schema *JSONSchemaProps` and
`JSONSchemas []JSONSchemaProps`; the defaults are Go's zero value. -/
structure JSONSchemaPropsOrArray (JSONSchemaProps : Type) where
  Schema : Option JSONSchemaProps := none
  JSONSchemas : Slice JSONSchemaProps := none
  deriving DecidableEq, Repr

/-- The struct `JSONSchemaPropsOrBool`: fields `Allows bool` and
`Schema *JSONSchemaProps`; the defaults are Go's zero value. -/
structure JSONSchemaPropsOrBool (JSONSchemaProps : Type) where
  Allows : Bool := false
  Schema : Option JSONSchemaProps := none
  deriving DecidableEq, Repr

/-- The struct `JSONSchemaPropsOrStringArray`: fields `Schema *JSONSchemaProps`
and `Property []string`; the defaults are Go's zero value. -/
structure JSONSchemaPropsOrStringArray (JSONSchemaProps : Type) where
  Schema : Option JSONSchemaProps := none
  Property : Slice String := none
  deriving DecidableEq, Repr

variable {JSONSchemaProps Obj : Type}

/-! ## `JSON` -/

/-- Method `func (s JSON) MarshalJSON() ([]byte, error)`. -/
def JSON.MarshalJSON (lib : Codec JSONSchemaProps Obj) (s : JSON) :
    List Byte × Option Error :=
  if s.Raw.length > 0 then
    match lib.jsonUnmarshalObj s.Raw with
    | .error err => (nullBytes, some (Error.lib err))
    | .ok obj => fromLib (lib.jsonMarshalObj obj)
  else
    (nullBytes, none)

/-- Method `func (s *JSON) UnmarshalJSON(data []byte) error`. -/
def JSON.UnmarshalJSON (s : JSON) (data : List Byte) : JSON × Option Error :=
  if data.length > 0 ∧ ¬ data = nullBytes then
    ({ s with Raw := data }, none)
  else
    (s, none)

/-- Method `func (s JSON) MarshalYAML() (interface, error)`. -/
def JSON.MarshalYAML (lib : Codec JSONSchemaProps Obj) (s : JSON) :
    Value JSONSchemaProps Obj × Option Error :=
  if s.Raw.length > 0 then
    match lib.yamlUnmarshalObj s.Raw with
    | .error err => (Value.str "null", some (Error.lib err))
    | .ok obj => (Value.obj obj, none)
  else
    (Value.str "null", none)

/-! ## `JSONSchemaPropsOrArray` -/

/-- Method `func (s JSONSchemaPropsOrArray) MarshalJSON() ([]byte, error)`. -/
def JSONSchemaPropsOrArray.MarshalJSON (lib : Codec JSONSchemaProps Obj)
    (s : JSONSchemaPropsOrArray JSONSchemaProps) : List Byte × Option Error :=
  if len s.JSONSchemas > 0 then
    fromLib (lib.jsonMarshalSchemas s.JSONSchemas)
  else
    fromLib (lib.jsonMarshalSchema s.Schema)

/-- The discriminant read at the top of the two sequence decoders:
`var first byte; if len(data) > 1 then first = data[0]`. -/
def firstByte (data : List Byte) : Byte :=
  if h : data.length > 1 then data[0] else 0

/-- Method `func (s *JSONSchemaPropsOrArray) UnmarshalJSON(data []byte) error`.
The two `if first == ...` statements run one after the other; the receiver is
assigned only at the end. -/
def JSONSchemaPropsOrArray.UnmarshalJSON (lib : Codec JSONSchemaProps Obj)
    (s : JSONSchemaPropsOrArray JSONSchemaProps) (data : List Byte) :
    JSONSchemaPropsOrArray JSONSchemaProps × Option Error :=
  let nw : JSONSchemaPropsOrArray JSONSchemaProps := {}
  let first := firstByte data
  let afterObject : Except String (JSONSchemaPropsOrArray JSONSchemaProps) :=
    if first = lbrace then
      match lib.jsonUnmarshalSchema data with
      | .error err => .error err
      | .ok sch => .ok { nw with Schema := some sch }
    else .ok nw
  match afterObject with
  | .error err => (s, some (Error.lib err))
  | .ok nw1 =>
    let afterArray : Except String (JSONSchemaPropsOrArray JSONSchemaProps) :=
      if first = lbracket then
        match lib.jsonUnmarshalSchemas data with
        | .error err => .error err
        | .ok l => .ok { nw1 with JSONSchemas := l }
      else .ok nw1
    match afterArray with
    | .error err => (s, some (Error.lib err))
    | .ok nw2 => (nw2, none)

/-- Method `func (s JSONSchemaPropsOrArray) MarshalYAML() (interface, error)`. -/
def JSONSchemaPropsOrArray.MarshalYAML
    (s : JSONSchemaPropsOrArray JSONSchemaProps) :
    Value JSONSchemaProps Obj × Option Error :=
  if len s.JSONSchemas > 0 then
    (Value.schemas s.JSONSchemas, none)
  else
    (Value.schema s.Schema, none)

/-! ## `JSONSchemaPropsOrBool` -/

/-- Method `func (s JSONSchemaPropsOrBool) MarshalJSON() ([]byte, error)`. -/
def JSONSchemaPropsOrBool.MarshalJSON (lib : Codec JSONSchemaProps Obj)
    (s : JSONSchemaPropsOrBool JSONSchemaProps) : List Byte × Option Error :=
  if s.Schema.isSome then
    fromLib (lib.jsonMarshalSchema s.Schema)
  else if s.Schema.isNone && !s.Allows then
    (falseBytes, none)
  else
    (trueBytes, none)

/-- Method `func (s *JSONSchemaPropsOrBool) UnmarshalJSON(data []byte) error`.
The cases of the `switch` are tried in source order; `data[0]` is read only
after the case `len(data) == 0` was not taken. -/
def JSONSchemaPropsOrBool.UnmarshalJSON (lib : Codec JSONSchemaProps Obj)
    (s : JSONSchemaPropsOrBool JSONSchemaProps) (data : List Byte) :
    JSONSchemaPropsOrBool JSONSchemaProps × Option Error :=
  let nw : JSONSchemaPropsOrBool JSONSchemaProps := {}
  if h : data.length = 0 then
    (nw, none)
  else if data[0] = lbrace then
    match lib.jsonUnmarshalSchema data with
    | .error err => (s, some (Error.lib err))
    | .ok sch => ({ nw with Allows := true, Schema := some sch }, none)
  else if data.length = 4 ∧ data = trueBytes then
    ({ nw with Allows := true }, none)
  else if data.length = 5 ∧ data = falseBytes then
    ({ nw with Allows := false }, none)
  else
    (s, some (Error.new "boolean or JSON schema expected"))

/-- Method `func (s JSONSchemaPropsOrBool) MarshalYAML() (interface, error)`. -/
def JSONSchemaPropsOrBool.MarshalYAML (lib : Codec JSONSchemaProps Obj)
    (s : JSONSchemaPropsOrBool JSONSchemaProps) :
    Value JSONSchemaProps Obj × Option Error :=
  if s.Schema.isSome then
    let r := fromLib (lib.yamlMarshalSchema s.Schema)
    (Value.bytes r.1, r.2)
  else if s.Schema.isNone && !s.Allows then
    (Value.bool false, none)
  else
    (Value.bool true, none)

/-! ## `JSONSchemaPropsOrStringArray` -/

/-- Method `func (s JSONSchemaPropsOrStringArray) MarshalJSON() ([]byte, error)`. -/
def JSONSchemaPropsOrStringArray.MarshalJSON (lib : Codec JSONSchemaProps Obj)
    (s : JSONSchemaPropsOrStringArray JSONSchemaProps) : List Byte × Option Error :=
  if len s.Property > 0 then
    fromLib (lib.jsonMarshalStrings s.Property)
  else if s.Schema.isSome then
    fromLib (lib.jsonMarshalSchema s.Schema)
  else
    (nullBytes, none)

/-- Method `func (s *JSONSchemaPropsOrStringArray) UnmarshalJSON(data []byte) error`. -/
def JSONSchemaPropsOrStringArray.UnmarshalJSON (lib : Codec JSONSchemaProps Obj)
    (s : JSONSchemaPropsOrStringArray JSONSchemaProps) (data : List Byte) :
    JSONSchemaPropsOrStringArray JSONSchemaProps × Option Error :=
  let first := firstByte data
  let nw : JSONSchemaPropsOrStringArray JSONSchemaProps := {}
  let afterObject : Except String (JSONSchemaPropsOrStringArray JSONSchemaProps) :=
    if first = lbrace then
      match lib.jsonUnmarshalSchema data with
      | .error err => .error err
      | .ok sch => .ok { nw with Schema := some sch }
    else .ok nw
  match afterObject with
  | .error err => (s, some (Error.lib err))
  | .ok nw1 =>
    let afterArray : Except String (JSONSchemaPropsOrStringArray JSONSchemaProps) :=
      if first = lbracket then
        match lib.jsonUnmarshalStrings data with
        | .error err => .error err
        | .ok l => .ok { nw1 with Property := l }
      else .ok nw1
    match afterArray with
    | .error err => (s, some (Error.lib err))
    | .ok nw2 => (nw2, none)

/-- Method `func (s JSONSchemaPropsOrStringArray) MarshalYAML() (interface, error)`. -/
def JSONSchemaPropsOrStringArray.MarshalYAML
    (s : JSONSchemaPropsOrStringArray JSONSchemaProps) :
    Value JSONSchemaProps Obj × Option Error :=
  if len s.Property > 0 then
    (Value.strings s.Property, none)
  else if s.Schema.isSome then
    (Value.schema s.Schema, none)
  else
    (Value.str "null", none)

/-! ## A sample instantiation of the parameters

The theorems below hold for every schema type and every `Codec`. To evaluate
the methods on concrete inputs, the parameters are instantiated with a small
schema type and a codec that behaves as `encoding/json` does on the handful of
texts listed in each function. -/

/-- A sample schema type with two values: the schema object with no field set
and the one with only the type set to "string". -/
inductive SampleSchema where
  | empty
  | typeString
  deriving DecidableEq, Repr

/-- The two bytes of the JSON text of the empty object. -/
def emptyObjectBytes : List Byte := [123, 125]

/-- The seventeen bytes of the JSON object text with the one member
"type" : "string", written without blanks. -/
def typeStringBytes : List Byte :=
  [123, 34, 116, 121, 112, 101, 34, 58, 34, 115, 116, 114, 105, 110, 103, 34, 125]

/-- The two bytes of the JSON text of the empty array. -/
def emptyArrayBytes : List Byte := [91, 93]

/-- The nine bytes of the JSON array text with the two strings "a" and "b". -/
def abArrayBytes : List Byte := [91, 34, 97, 34, 44, 34, 98, 34, 93]

/-- The five bytes of the text maybe. -/
def maybeBytes : List Byte := [109, 97, 121, 98, 101]

/-- JSON text of a sample schema. -/
def SampleSchema.encode : SampleSchema → List Byte
  | .empty => emptyObjectBytes
  | .typeString => typeStringBytes

/-- JSON texts the sample decoder reads as a schema object; the text null
leaves the fresh variable at its zero value, as in Go. -/
def SampleSchema.decode (data : List Byte) : Except String SampleSchema :=
  if data = emptyObjectBytes then .ok .empty
  else if data = typeStringBytes then .ok .typeString
  else if data = nullBytes then .ok .empty
  else if data = [lbrace] then .error "unexpected end of JSON input"
  else .error "invalid character"

/-- JSON array text of a list of element texts: the elements separated by
commas (byte 44) between brackets. -/
def encodeArray (elems : List (List Byte)) : List Byte :=
  [lbracket] ++ List.intercalate [44] elems ++ [93]

/-- JSON text of a string of ASCII characters that need no escaping: its
characters as bytes between double quotes (byte 34). -/
def encodeString (s : String) : List Byte :=
  [34] ++ s.data.map (fun c => (Fin.ofNat c.toNat : Byte)) ++ [34]

/-- A sample codec over `SampleSchema` with natural numbers below ten as the
generic values (decoded from and encoded to a single digit). -/
def sampleCodec : Codec SampleSchema Nat where
  jsonMarshalSchema
    | none => (nullBytes, none)
    | some sch => (sch.encode, none)
  jsonUnmarshalSchema := SampleSchema.decode
  jsonMarshalSchemas
    | none => (nullBytes, none)
    | some l => (encodeArray (l.map SampleSchema.encode), none)
  jsonUnmarshalSchemas data :=
    if data = nullBytes then .ok none
    else if data = emptyArrayBytes then .ok (some [])
    else if data = encodeArray [emptyObjectBytes] then .ok (some [.empty])
    else if data = encodeArray [typeStringBytes] then .ok (some [.typeString])
    else if data = [lbracket] then .error "unexpected end of JSON input"
    else .error "invalid character"
  jsonMarshalStrings
    | none => (nullBytes, none)
    | some l => (encodeArray (l.map encodeString), none)
  jsonUnmarshalStrings data :=
    if data = nullBytes then .ok none
    else if data = emptyArrayBytes then .ok (some [])
    else if data = abArrayBytes then .ok (some ["a", "b"])
    else if data = [lbracket] then .error "unexpected end of JSON input"
    else .error "invalid character"
  jsonMarshalObj n := ([Fin.ofNat (48 + n % 10)], none)
  jsonUnmarshalObj data :=
    match data with
    | [b] => if 48 ≤ b.val ∧ b.val ≤ 57 then .ok (b.val - 48) else .error "invalid character"
    | _ => .error "invalid character"
  yamlUnmarshalObj data :=
    match data with
    | [b] => if 48 ≤ b.val ∧ b.val ≤ 57 then .ok (b.val - 48) else .error "cannot unmarshal"
    | _ => .error "cannot unmarshal"
  yamlMarshalSchema
    | none => (nullBytes ++ [10], none)
    | some .empty => (emptyObjectBytes ++ [10], none)
    | some .typeString => ([116, 121, 112, 101, 58, 32, 115, 116, 114, 105, 110, 103, 10], none)

/-- The seven bytes of the JSON string text "maybe", quotes included. -/
def quotedMaybeBytes : List Byte := [34, 109, 97, 121, 98, 101, 34]

/-- The thirty-two bytes of the JSON object text with the one member
"additionalProperties" : "maybe", written without blanks. -/
def additionalPropertiesMaybeBytes : List Byte :=
  [123, 34, 97, 100, 100, 105, 116, 105, 111, 110, 97, 108, 80, 114, 111, 112, 101, 114,
    116, 105, 101, 115, 34, 58, 34, 109, 97, 121, 98, 101, 34, 125]

/-- A sample schema decoder for a schema type that has a field
`additionalProperties` of type `*JSONSchemaPropsOrBool`. On the object text
with that one member and the value "maybe" it does what `encoding/json` does
for a field whose type has an `UnmarshalJSON` method: it calls
`JSONSchemaPropsOrBool.UnmarshalJSON` on the bytes of the member's value and
returns that call's error unchanged. On every other text it is the decoder of
the sample codec. -/
def nestedDecode (data : List Byte) : Except String SampleSchema :=
  if data = additionalPropertiesMaybeBytes then
    match (JSONSchemaPropsOrBool.UnmarshalJSON sampleCodec
        ({ } : JSONSchemaPropsOrBool SampleSchema) quotedMaybeBytes).2 with
    | some err => .error err.message
    | none => .ok .empty
  else SampleSchema.decode data

/-- The sample codec with the schema decoder that re-enters
`JSONSchemaPropsOrBool.UnmarshalJSON` for the nested field. -/
def nestingCodec : Codec SampleSchema Nat :=
  { sampleCodec with jsonUnmarshalSchema := nestedDecode }

/-- The assumption of the round trip on the library's string-list codec, for
the list `l`: the encoder succeeds with a JSON array text (the array-opening
byte followed by at least one more byte, as every JSON array text ends with
the closing bracket) and the decoder reads that text back as the same list. -/
def StringsRoundTrip (lib : Codec JSONSchemaProps Obj) (l : List String) : Prop :=
  ∃ rest : List Byte,
    lib.jsonMarshalStrings (some l) = (lbracket :: rest, none) ∧ rest ≠ [] ∧
    lib.jsonUnmarshalStrings (lbracket :: rest) = .ok (some l)

/-- The five bytes of the text null preceded by one blank. -/
def blankNullBytes : List Byte := [32, 110, 117, 108, 108]

/-! ## The decoders with the index expression made explicit

Go's index expression `data[0]` panics at run time when the slice is empty. In
the definitions above the read is written with the bound in scope; here the
same three decoders are written with an index that can fail, `none` standing
for the run-time panic, so that its absence is a statement about the code. -/

/-- Go's index expression `data[i]` on a byte slice; `none` is the run-time
panic "index out of range". -/
def index (data : List Byte) (i : Nat) : Option Byte :=
  data[i]?

/-- The discriminant read `var first byte; if len(data) > 1 then first = data[0]`
with the index expression explicit. -/
def firstByteChecked (data : List Byte) : Option Byte :=
  if data.length > 1 then index data 0 else some 0

/-- Method `func (s *JSONSchemaPropsOrArray) UnmarshalJSON(data []byte) error`
with the index expression explicit; `none` is a run-time panic. -/
def JSONSchemaPropsOrArray.UnmarshalJSONChecked (lib : Codec JSONSchemaProps Obj)
    (s : JSONSchemaPropsOrArray JSONSchemaProps) (data : List Byte) :
    Option (JSONSchemaPropsOrArray JSONSchemaProps × Option Error) :=
  let nw : JSONSchemaPropsOrArray JSONSchemaProps := {}
  match firstByteChecked data with
  | none => none
  | some first =>
    let afterObject : Except String (JSONSchemaPropsOrArray JSONSchemaProps) :=
      if first = lbrace then
        match lib.jsonUnmarshalSchema data with
        | .error err => .error err
        | .ok sch => .ok { nw with Schema := some sch }
      else .ok nw
    match afterObject with
    | .error err => some (s, some (Error.lib err))
    | .ok nw1 =>
      let afterArray : Except String (JSONSchemaPropsOrArray JSONSchemaProps) :=
        if first = lbracket then
          match lib.jsonUnmarshalSchemas data with
          | .error err => .error err
          | .ok l => .ok { nw1 with JSONSchemas := l }
        else .ok nw1
      match afterArray with
      | .error err => some (s, some (Error.lib err))
      | .ok nw2 => some (nw2, none)

/-- Method `func (s *JSONSchemaPropsOrBool) UnmarshalJSON(data []byte) error`
with the index expression explicit; `none` is a run-time panic. The case
`data[0] == ...` is evaluated only when the case `len(data) == 0` before it was
not taken. -/
def JSONSchemaPropsOrBool.UnmarshalJSONChecked (lib : Codec JSONSchemaProps Obj)
    (s : JSONSchemaPropsOrBool JSONSchemaProps) (data : List Byte) :
    Option (JSONSchemaPropsOrBool JSONSchemaProps × Option Error) :=
  let nw : JSONSchemaPropsOrBool JSONSchemaProps := {}
  if data.length = 0 then
    some (nw, none)
  else
    match index data 0 with
    | none => none
    | some b =>
      if b = lbrace then
        match lib.jsonUnmarshalSchema data with
        | .error err => some (s, some (Error.lib err))
        | .ok sch => some ({ nw with Allows := true, Schema := some sch }, none)
      else if data.length = 4 ∧ data = trueBytes then
        some ({ nw with Allows := true }, none)
      else if data.length = 5 ∧ data = falseBytes then
        some ({ nw with Allows := false }, none)
      else
        some (s, some (Error.new "boolean or JSON schema expected"))

/-- Method `func (s *JSONSchemaPropsOrStringArray) UnmarshalJSON(data []byte) error`
with the index expression explicit; `none` is a run-time panic. -/
def JSONSchemaPropsOrStringArray.UnmarshalJSONChecked (lib : Codec JSONSchemaProps Obj)
    (s : JSONSchemaPropsOrStringArray JSONSchemaProps) (data : List Byte) :
    Option (JSONSchemaPropsOrStringArray JSONSchemaProps × Option Error) :=
  match firstByteChecked data with
  | none => none
  | some first =>
    let nw : JSONSchemaPropsOrStringArray JSONSchemaProps := {}
    let afterObject : Except String (JSONSchemaPropsOrStringArray JSONSchemaProps) :=
      if first = lbrace then
        match lib.jsonUnmarshalSchema data with
        | .error err => .error err
        | .ok sch => .ok { nw with Schema := some sch }
      else .ok nw
    match afterObject with
    | .error err => some (s, some (Error.lib err))
    | .ok nw1 =>
      let afterArray : Except String (JSONSchemaPropsOrStringArray JSONSchemaProps) :=
        if first = lbracket then
          match lib.jsonUnmarshalStrings data with
          | .error err => .error err
          | .ok l => .ok { nw1 with Property := l }
        else .ok nw1
      match afterArray with
      | .error err => some (s, some (Error.lib err))
      | .ok nw2 => some (nw2, none)

/-! ## The format-B encode rule of `JSONSchemaPropsOrBool` in the specification's words -/

/-- The encode rule of the specification (section 4.3) for the YAML format:
if the Schema alternative is populated, the Schema itself is what is encoded,
whatever the flag; else the boolean false if the flag is false, else the
boolean true. This definition follows the specification, not `marshal.go`; it
is compared with `JSONSchemaPropsOrBool.MarshalYAML` below. -/
def JSONSchemaPropsOrBool.MarshalYAMLSpec
    (s : JSONSchemaPropsOrBool JSONSchemaProps) :
    Value JSONSchemaProps Obj × Option Error :=
  match s.Schema with
  | some sch => (Value.schema (some sch), none)
  | none => if s.Allows then (Value.bool true, none) else (Value.bool false, none)

/-! ## Theorems -/

/-- With at least two bytes of input the discriminant is the first byte. -/
theorem firstByte_cons_cons (b c : Byte) (rest : List Byte) :
    firstByte (b :: c :: rest) = b := by
  simp [firstByte]

/-- With at most one byte of input the discriminant stays the zero byte. -/
theorem firstByte_short (data : List Byte) (h : data.length ≤ 1) :
    firstByte data = 0 := by
  unfold firstByte
  rw [dif_neg (by omega)]

/-- The discriminant differs from any non-zero byte the input does not start with. -/
theorem firstByte_ne (data : List Byte) (b : Byte) (hb : b ≠ 0)
    (h : data.head? ≠ some b) : firstByte data ≠ b := by
  rcases data with _ | ⟨x, _ | ⟨y, rest⟩⟩
  · simpa [firstByte] using hb.symm
  · simpa [firstByte] using hb.symm
  · simpa [firstByte] using h

/-- C1 as stated fails on an input that starts with the object-opening byte
and whose nested schema decode re-enters `JSONSchemaPropsOrBool.UnmarshalJSON`:
for the object text with the member "additionalProperties" : "maybe" the nested
call on the value "maybe" returns the "boolean or JSON schema expected" error,
the schema decode hands it back, and the outer `UnmarshalJSON` returns it
unchanged, although the input is not one of those the claim names. -/
theorem orBool_unmarshal_nested_error :
    additionalPropertiesMaybeBytes.head? = some lbrace
    ∧ (JSONSchemaPropsOrBool.UnmarshalJSON sampleCodec
        ({ } : JSONSchemaPropsOrBool SampleSchema) quotedMaybeBytes).2
      = some (Error.new "boolean or JSON schema expected")
    ∧ nestingCodec.jsonUnmarshalSchema additionalPropertiesMaybeBytes
      = .error "boolean or JSON schema expected"
    ∧ (JSONSchemaPropsOrBool.UnmarshalJSON nestingCodec
        ({ } : JSONSchemaPropsOrBool SampleSchema) additionalPropertiesMaybeBytes).2.map
          Error.message
      = some "boolean or JSON schema expected"
    ∧ ¬ (additionalPropertiesMaybeBytes ≠ []
        ∧ additionalPropertiesMaybeBytes.head? ≠ some lbrace
        ∧ additionalPropertiesMaybeBytes ≠ trueBytes
        ∧ additionalPropertiesMaybeBytes ≠ falseBytes) := by
  refine ⟨rfl, rfl, rfl, rfl, ?_⟩
  rintro ⟨_, h, _, _⟩
  exact h rfl

/-- C1, amended: the error `JSONSchemaPropsOrBool.UnmarshalJSON` returns has
the message "boolean or JSON schema expected" exactly when the input is
non-empty, does not start with the object-opening byte and is neither the text
true nor the text false, or when the input starts with the object-opening byte
and the nested schema decode fails with that message; on the empty input and
on the two literals it returns no error; and on an input that starts with the
object-opening byte it fails exactly when the nested schema decode fails, with
that decode's message unchanged. -/
theorem orBool_unmarshal_error_message (lib : Codec JSONSchemaProps Obj)
    (s : JSONSchemaPropsOrBool JSONSchemaProps) (data : List Byte) :
    ((JSONSchemaPropsOrBool.UnmarshalJSON lib s data).2.map Error.message
        = some "boolean or JSON schema expected"
      ↔ ((data ≠ [] ∧ data.head? ≠ some lbrace ∧ data ≠ trueBytes ∧ data ≠ falseBytes)
        ∨ (data.head? = some lbrace
          ∧ lib.jsonUnmarshalSchema data = .error "boolean or JSON schema expected")))
    ∧ ((data = [] ∨ data = trueBytes ∨ data = falseBytes) →
        (JSONSchemaPropsOrBool.UnmarshalJSON lib s data).2 = none)
    ∧ (data.head? = some lbrace →
        (JSONSchemaPropsOrBool.UnmarshalJSON lib s data).2.map Error.message
          = match lib.jsonUnmarshalSchema data with
            | .error msg => some msg
            | .ok _ => none) := by
  unfold JSONSchemaPropsOrBool.UnmarshalJSON
  rcases data with _ | ⟨b, rest⟩
  · simp [trueBytes, falseBytes]
  · by_cases hb : b = lbrace
    · subst hb
      simp only [List.length_cons, Nat.add_one_ne_zero, ↓reduceDIte, List.getElem_cons_zero,
        ↓reduceIte, List.head?_cons]
      cases h : lib.jsonUnmarshalSchema (lbrace :: rest) <;>
        simp [trueBytes, falseBytes, lbrace, Error.message]
    · by_cases ht : b :: rest = trueBytes
      · simp [ht, trueBytes, falseBytes, lbrace]
      · by_cases hf : b :: rest = falseBytes
        · simp [hf, trueBytes, falseBytes, lbrace]
        · simp [hb, ht, hf, Error.message]

/-- C1, amended, at the input maybe with a populated receiver, and at the
object text with an ill-formed nested field: in both cases the error returned
has the message "boolean or JSON schema expected". -/
theorem orBool_unmarshal_error_message_sample :
    (JSONSchemaPropsOrBool.UnmarshalJSON sampleCodec
        ({ Allows := true, Schema := some .typeString } : JSONSchemaPropsOrBool SampleSchema)
        maybeBytes).2.map Error.message
      = some "boolean or JSON schema expected"
    ∧ (JSONSchemaPropsOrBool.UnmarshalJSON nestingCodec
        ({ } : JSONSchemaPropsOrBool SampleSchema)
        additionalPropertiesMaybeBytes).2.map Error.message
      = some "boolean or JSON schema expected" :=
  ⟨(orBool_unmarshal_error_message sampleCodec _ maybeBytes).1.2
      (Or.inl (by decide)),
    (orBool_unmarshal_error_message nestingCodec _ additionalPropertiesMaybeBytes).1.2
      (Or.inr ⟨rfl, rfl⟩)⟩

/-- C2: whatever the receiver held before, `JSONSchemaPropsOrBool.UnmarshalJSON`
on the text true yields (Allows = true, Schema = nil), on the text false yields
(Allows = false, Schema = nil), and on the zero-length input yields the zero
value (Allows = false, Schema = nil), each with a nil error. -/
theorem orBool_unmarshal_literals (lib : Codec JSONSchemaProps Obj)
    (s : JSONSchemaPropsOrBool JSONSchemaProps) :
    JSONSchemaPropsOrBool.UnmarshalJSON lib s trueBytes
        = ({ Allows := true, Schema := none }, none)
    ∧ JSONSchemaPropsOrBool.UnmarshalJSON lib s falseBytes
        = ({ Allows := false, Schema := none }, none)
    ∧ JSONSchemaPropsOrBool.UnmarshalJSON lib s []
        = ({ Allows := false, Schema := none }, none) := by
  refine ⟨?_, ?_, ?_⟩ <;>
    simp [JSONSchemaPropsOrBool.UnmarshalJSON, trueBytes, falseBytes, lbrace]

/-- C3: `JSONSchemaPropsOrBool.MarshalJSON` returns what the JSON encoding of
the Schema returns when Schema is non-nil, the same for both values of Allows;
with a nil Schema it returns exactly the bytes false when Allows is false and
exactly the bytes true when Allows is true, with a nil error. -/
theorem orBool_marshal_cases (lib : Codec JSONSchemaProps Obj)
    (sch : JSONSchemaProps) (allows : Bool) :
    JSONSchemaPropsOrBool.MarshalJSON lib { Allows := allows, Schema := some sch }
        = fromLib (lib.jsonMarshalSchema (some sch))
    ∧ JSONSchemaPropsOrBool.MarshalJSON lib { Allows := true, Schema := some sch }
        = JSONSchemaPropsOrBool.MarshalJSON lib { Allows := false, Schema := some sch }
    ∧ JSONSchemaPropsOrBool.MarshalJSON lib
        ({ Allows := false, Schema := none } : JSONSchemaPropsOrBool JSONSchemaProps)
        = (falseBytes, none)
    ∧ JSONSchemaPropsOrBool.MarshalJSON lib
        ({ Allows := true, Schema := none } : JSONSchemaPropsOrBool JSONSchemaProps)
        = (trueBytes, none) := by
  refine ⟨?_, ?_, ?_, ?_⟩ <;> simp [JSONSchemaPropsOrBool.MarshalJSON]

/-- C5: precedence on encode for `JSONSchemaPropsOrArray`. When `JSONSchemas`
has at least one element, `MarshalJSON` returns what the encoding of the
sequence returns and `MarshalYAML` hands over the sequence, whatever Schema
holds; when the sequence is empty or nil they encode, respectively hand over,
the Schema pointer (nil included). -/
theorem orArray_marshal_precedence (lib : Codec JSONSchemaProps Obj)
    (v : JSONSchemaPropsOrArray JSONSchemaProps) :
    (0 < len v.JSONSchemas →
      JSONSchemaPropsOrArray.MarshalJSON lib v = fromLib (lib.jsonMarshalSchemas v.JSONSchemas)
      ∧ (JSONSchemaPropsOrArray.MarshalYAML v : Value JSONSchemaProps Obj × Option Error)
          = (Value.schemas v.JSONSchemas, none))
    ∧ (len v.JSONSchemas = 0 →
      JSONSchemaPropsOrArray.MarshalJSON lib v = fromLib (lib.jsonMarshalSchema v.Schema)
      ∧ (JSONSchemaPropsOrArray.MarshalYAML v : Value JSONSchemaProps Obj × Option Error)
          = (Value.schema v.Schema, none)) := by
  constructor
  · intro h
    simp [JSONSchemaPropsOrArray.MarshalJSON, JSONSchemaPropsOrArray.MarshalYAML, h]
  · intro h
    simp [JSONSchemaPropsOrArray.MarshalJSON, JSONSchemaPropsOrArray.MarshalYAML, h]

/-- C5 at a value of the sample codec that holds both a schema and a one-element
sequence: both encoders take the sequence. -/
theorem orArray_marshal_precedence_sample :
    JSONSchemaPropsOrArray.MarshalJSON sampleCodec
        { Schema := some .typeString, JSONSchemas := some [.empty] }
      = ([91, 123, 125, 93], none)
    ∧ (JSONSchemaPropsOrArray.MarshalYAML
        { Schema := some .typeString, JSONSchemas := some [.empty] }
          : Value SampleSchema Nat × Option Error)
      = (Value.schemas (some [.empty]), none) :=
  (orArray_marshal_precedence sampleCodec
    { Schema := some .typeString, JSONSchemas := some [.empty] }).1 (by decide)

/-- C6: `JSONSchemaPropsOrStringArray.MarshalJSON` returns what the encoding of
`Property` returns when `Property` is non-empty (whatever Schema holds), else
what the encoding of the Schema returns when Schema is non-nil, else exactly
the bytes null with a nil error; `MarshalYAML` picks its result in the same
order: the string sequence, else the Schema, else the string "null". -/
theorem orStringArray_marshal_cases (lib : Codec JSONSchemaProps Obj)
    (v : JSONSchemaPropsOrStringArray JSONSchemaProps) :
    (0 < len v.Property →
      JSONSchemaPropsOrStringArray.MarshalJSON lib v = fromLib (lib.jsonMarshalStrings v.Property)
      ∧ (JSONSchemaPropsOrStringArray.MarshalYAML v : Value JSONSchemaProps Obj × Option Error)
          = (Value.strings v.Property, none))
    ∧ (len v.Property = 0 → v.Schema ≠ none →
      JSONSchemaPropsOrStringArray.MarshalJSON lib v = fromLib (lib.jsonMarshalSchema v.Schema)
      ∧ (JSONSchemaPropsOrStringArray.MarshalYAML v : Value JSONSchemaProps Obj × Option Error)
          = (Value.schema v.Schema, none))
    ∧ (len v.Property = 0 → v.Schema = none →
      JSONSchemaPropsOrStringArray.MarshalJSON lib v = (nullBytes, none)
      ∧ (JSONSchemaPropsOrStringArray.MarshalYAML v : Value JSONSchemaProps Obj × Option Error)
          = (Value.str "null", none)) := by
  refine ⟨?_, ?_, ?_⟩
  · intro h
    simp [JSONSchemaPropsOrStringArray.MarshalJSON, JSONSchemaPropsOrStringArray.MarshalYAML, h]
  · intro h hs
    obtain ⟨sch, hsch⟩ := Option.ne_none_iff_exists'.mp hs
    simp [JSONSchemaPropsOrStringArray.MarshalJSON, JSONSchemaPropsOrStringArray.MarshalYAML,
      h, hsch]
  · intro h hs
    simp [JSONSchemaPropsOrStringArray.MarshalJSON, JSONSchemaPropsOrStringArray.MarshalYAML,
      h, hs]

/-- C6 at a value of the sample codec that holds both a schema and the strings
"a" and "b": both encoders take the strings. -/
theorem orStringArray_marshal_cases_sample :
    JSONSchemaPropsOrStringArray.MarshalJSON sampleCodec
        { Schema := some .typeString, Property := some ["a", "b"] }
      = (abArrayBytes, none)
    ∧ (JSONSchemaPropsOrStringArray.MarshalYAML
        { Schema := some .typeString, Property := some ["a", "b"] }
          : Value SampleSchema Nat × Option Error)
      = (Value.strings (some ["a", "b"]), none) :=
  (orStringArray_marshal_cases sampleCodec
    { Schema := some .typeString, Property := some ["a", "b"] }).1 (by decide)

/-- C7 as stated fails on the one-byte input that consists of the
object-opening byte alone: the input is non-empty and starts with that byte,
the schema decode of it is an error, yet `JSONSchemaPropsOrArray.UnmarshalJSON`
calls no decode, returns a nil error and leaves Schema nil. -/
theorem orArray_unmarshal_single_brace :
    ([lbrace] : List Byte) ≠ [] ∧ [lbrace].head? = some lbrace
    ∧ sampleCodec.jsonUnmarshalSchema [lbrace] = .error "unexpected end of JSON input"
    ∧ JSONSchemaPropsOrArray.UnmarshalJSON sampleCodec
        { Schema := none, JSONSchemas := none } [lbrace]
      = ({ Schema := none, JSONSchemas := none }, none)
    ∧ ¬ ((JSONSchemaPropsOrArray.UnmarshalJSON sampleCodec
            { Schema := none, JSONSchemas := none } [lbrace]).2
          = some (Error.lib "unexpected end of JSON input")
        ∨ ∃ sch, (JSONSchemaPropsOrArray.UnmarshalJSON sampleCodec
            { Schema := none, JSONSchemas := none } [lbrace]).1.Schema = some sch) := by
  refine ⟨by decide, rfl, rfl, rfl, ?_⟩
  rintro (h | ⟨sch, h⟩)
  · exact absurd h (by decide)
  · exact Option.some_ne_none sch h.symm

/-- C7, amended: for every input of at least two bytes whose first byte is the
object-opening byte, `JSONSchemaPropsOrArray.UnmarshalJSON` decodes the input
as a single schema: it returns that decode's error with the receiver untouched,
or ends with Schema set to the decoded object and a nil `JSONSchemas`; and for
every input of at least two bytes whose first byte is the array-opening byte it
decodes the input as a sequence of schemas: it returns that decode's error, or
ends with `JSONSchemas` set to the decoded sequence and a nil Schema. -/
theorem orArray_unmarshal_dispatch (lib : Codec JSONSchemaProps Obj)
    (s : JSONSchemaPropsOrArray JSONSchemaProps) (data : List Byte)
    (hlen : 1 < data.length) :
    (data.head? = some lbrace →
      JSONSchemaPropsOrArray.UnmarshalJSON lib s data
        = match lib.jsonUnmarshalSchema data with
          | .error msg => (s, some (Error.lib msg))
          | .ok sch => ({ Schema := some sch, JSONSchemas := none }, none))
    ∧ (data.head? = some lbracket →
      JSONSchemaPropsOrArray.UnmarshalJSON lib s data
        = match lib.jsonUnmarshalSchemas data with
          | .error msg => (s, some (Error.lib msg))
          | .ok l => ({ Schema := none, JSONSchemas := l }, none)) := by
  rcases data with _ | ⟨b, _ | ⟨c, rest⟩⟩
  · simp at hlen
  · simp at hlen
  · constructor
    · intro h
      have hb : b = lbrace := by simpa using h
      subst hb
      have hbr : lbrace ≠ lbracket := by decide
      unfold JSONSchemaPropsOrArray.UnmarshalJSON
      cases hu : lib.jsonUnmarshalSchema (lbrace :: c :: rest) <;>
        simp [firstByte_cons_cons, hbr]
    · intro h
      have hb : b = lbracket := by simpa using h
      subst hb
      have hbr : lbracket ≠ lbrace := by decide
      unfold JSONSchemaPropsOrArray.UnmarshalJSON
      cases hu : lib.jsonUnmarshalSchemas (lbracket :: c :: rest) <;>
        simp [firstByte_cons_cons, hbr]

/-- C7, amended, at the seventeen-byte object text with type "string": the
sample decoder yields the schema, with a nil sequence and a nil error. -/
theorem orArray_unmarshal_dispatch_sample :
    1 < typeStringBytes.length
    ∧ JSONSchemaPropsOrArray.UnmarshalJSON sampleCodec
        { Schema := none, JSONSchemas := some [.empty] } typeStringBytes
      = ({ Schema := some .typeString, JSONSchemas := none }, none) :=
  ⟨by decide,
    (orArray_unmarshal_dispatch sampleCodec
      { Schema := none, JSONSchemas := some [.empty] } typeStringBytes (by decide)).1 rfl⟩

/-- C8: for every input of at least two bytes whose first byte is the
array-opening byte and which the JSON decoder reads as the string list `l`,
`JSONSchemaPropsOrStringArray.UnmarshalJSON` succeeds with `Property = l` and a
nil Schema; for every input of at least two bytes whose first byte is the
object-opening byte and which the decoder reads as the schema `sch`, it
succeeds with Schema set to `sch` and a nil `Property`. -/
theorem orStringArray_unmarshal_dispatch (lib : Codec JSONSchemaProps Obj)
    (s : JSONSchemaPropsOrStringArray JSONSchemaProps) (data : List Byte)
    (hlen : 1 < data.length) :
    (∀ l, data.head? = some lbracket → lib.jsonUnmarshalStrings data = .ok l →
      JSONSchemaPropsOrStringArray.UnmarshalJSON lib s data
        = ({ Schema := none, Property := l }, none))
    ∧ (∀ sch, data.head? = some lbrace → lib.jsonUnmarshalSchema data = .ok sch →
      JSONSchemaPropsOrStringArray.UnmarshalJSON lib s data
        = ({ Schema := some sch, Property := none }, none)) := by
  rcases data with _ | ⟨b, _ | ⟨c, rest⟩⟩
  · simp at hlen
  · simp at hlen
  · constructor
    · intro l h hu
      have hb : b = lbracket := by simpa using h
      subst hb
      have hbr : lbracket ≠ lbrace := by decide
      simp [JSONSchemaPropsOrStringArray.UnmarshalJSON, firstByte_cons_cons, hbr, hu]
    · intro sch h hu
      have hb : b = lbrace := by simpa using h
      subst hb
      have hbr : lbrace ≠ lbracket := by decide
      simp [JSONSchemaPropsOrStringArray.UnmarshalJSON, firstByte_cons_cons, hbr, hu]

/-- C8 at the nine-byte array text of the strings "a" and "b": the sample
decoder yields `Property` with the two strings, a nil Schema and a nil error,
whatever the receiver held. -/
theorem orStringArray_unmarshal_dispatch_sample :
    1 < abArrayBytes.length
    ∧ JSONSchemaPropsOrStringArray.UnmarshalJSON sampleCodec
        { Schema := some .typeString, Property := none } abArrayBytes
      = ({ Schema := none, Property := some ["a", "b"] }, none) :=
  ⟨by decide,
    (orStringArray_unmarshal_dispatch sampleCodec
      { Schema := some .typeString, Property := none } abArrayBytes (by decide)).1
      (some ["a", "b"]) rfl rfl⟩

/-- C9: permissive decode. For every input that is empty or whose first byte is
neither the object-opening nor the array-opening byte,
`JSONSchemaPropsOrArray.UnmarshalJSON` and
`JSONSchemaPropsOrStringArray.UnmarshalJSON` return a nil error and leave the
receiver at the zero value (nil Schema, nil sequence), whatever it held. -/
theorem sequence_unmarshal_permissive (lib : Codec JSONSchemaProps Obj)
    (s1 : JSONSchemaPropsOrArray JSONSchemaProps)
    (s2 : JSONSchemaPropsOrStringArray JSONSchemaProps) (data : List Byte)
    (h : data = [] ∨ ∃ b rest, data = b :: rest ∧ b ≠ lbrace ∧ b ≠ lbracket) :
    JSONSchemaPropsOrArray.UnmarshalJSON lib s1 data
        = ({ Schema := none, JSONSchemas := none }, none)
    ∧ JSONSchemaPropsOrStringArray.UnmarshalJSON lib s2 data
        = ({ Schema := none, Property := none }, none) := by
  have h1 : firstByte data ≠ lbrace := by
    apply firstByte_ne data lbrace (by decide)
    rcases h with rfl | ⟨b, rest, rfl, hb, _⟩
    · simp
    · simpa using hb
  have h2 : firstByte data ≠ lbracket := by
    apply firstByte_ne data lbracket (by decide)
    rcases h with rfl | ⟨b, rest, rfl, _, hb⟩
    · simp
    · simpa using hb
  simp [JSONSchemaPropsOrArray.UnmarshalJSON, JSONSchemaPropsOrStringArray.UnmarshalJSON,
    h1, h2]

/-- C9 at the four-byte input null, with receivers that held values before. -/
theorem sequence_unmarshal_permissive_sample :
    JSONSchemaPropsOrArray.UnmarshalJSON sampleCodec
        { Schema := some .typeString, JSONSchemas := some [.empty] } nullBytes
      = ({ Schema := none, JSONSchemas := none }, none)
    ∧ JSONSchemaPropsOrStringArray.UnmarshalJSON sampleCodec
        { Schema := some .typeString, Property := some ["a"] } nullBytes
      = ({ Schema := none, Property := none }, none) :=
  sequence_unmarshal_permissive sampleCodec _ _ nullBytes
    (Or.inr ⟨110, [117, 108, 108], rfl, by decide, by decide⟩)

/-- C10 as stated fails for a receiver that held a payload: with the one-byte
payload 1 (byte 49), `JSON.UnmarshalJSON` of the four bytes null returns a nil
error and keeps the payload, so it is not empty afterwards, and `MarshalJSON`
of the result returns that payload's encoding, not the bytes null. -/
theorem json_unmarshal_null_keeps_payload :
    JSON.UnmarshalJSON { Raw := [49] } nullBytes = ({ Raw := [49] }, none)
    ∧ (JSON.UnmarshalJSON { Raw := [49] } nullBytes).1.Raw ≠ []
    ∧ JSON.MarshalJSON sampleCodec (JSON.UnmarshalJSON { Raw := [49] } nullBytes).1
        = ([49], none)
    ∧ JSON.MarshalJSON sampleCodec (JSON.UnmarshalJSON { Raw := [49] } nullBytes).1
        ≠ (nullBytes, none) := by
  refine ⟨by decide, by decide, by decide, by decide⟩

/-- C10, amended: for every `JSON` receiver, `UnmarshalJSON` of the four-byte
input null or of the empty input returns a nil error and leaves the payload as
it was before the call; when the payload was empty before, it is empty
afterwards and a subsequent `MarshalJSON` of the result returns exactly the
bytes null with a nil error. -/
theorem json_unmarshal_null_absent (lib : Codec JSONSchemaProps Obj) (s : JSON)
    (data : List Byte) (hd : data = nullBytes ∨ data = []) :
    JSON.UnmarshalJSON s data = (s, none)
    ∧ (s.Raw = [] →
        (JSON.UnmarshalJSON s data).1.Raw = []
        ∧ JSON.MarshalJSON lib (JSON.UnmarshalJSON s data).1 = (nullBytes, none)) := by
  have hu : JSON.UnmarshalJSON s data = (s, none) := by
    rcases hd with rfl | rfl <;> simp [JSON.UnmarshalJSON]
  refine ⟨hu, fun hs => ?_⟩
  rw [hu]
  simp [JSON.MarshalJSON, hs]

/-- C10, amended, at the zero-value receiver and the input null of the sample
codec: the payload stays empty and encodes to the bytes null. -/
theorem json_unmarshal_null_absent_sample :
    JSON.UnmarshalJSON { Raw := [] } nullBytes = ({ Raw := [] }, none)
    ∧ JSON.MarshalJSON sampleCodec (JSON.UnmarshalJSON { Raw := [] } nullBytes).1
        = (nullBytes, none) :=
  have t := json_unmarshal_null_absent sampleCodec { Raw := [] } nullBytes (Or.inl rfl)
  ⟨t.1, (t.2 rfl).2⟩

/-! ### Shape of the three union decoders

Each decoder either fails with a library error (or, for
`JSONSchemaPropsOrBool`, its own error) and hands back the receiver it was
given, or succeeds with a value that is built from the input alone. -/

/-- Shape of `JSONSchemaPropsOrArray.UnmarshalJSON` on an input: for every
receiver it fails with one and the same library error and returns the
receiver, or for every receiver it succeeds with one and the same value, which
has a nil Schema or a nil sequence. -/
theorem orArray_unmarshal_shape (lib : Codec JSONSchemaProps Obj) (data : List Byte) :
    (∃ msg, ∀ s, JSONSchemaPropsOrArray.UnmarshalJSON lib s data = (s, some (Error.lib msg)))
    ∨ (∃ v, (∀ s, JSONSchemaPropsOrArray.UnmarshalJSON lib s data = (v, none))
        ∧ (v.Schema = none ∨ v.JSONSchemas = none)) := by
  have hbr : lbrace ≠ lbracket := by decide
  have hbr2 : lbracket ≠ lbrace := by decide
  by_cases h1 : firstByte data = lbrace
  · have h2 : firstByte data ≠ lbracket := by rw [h1]; decide
    cases hu : lib.jsonUnmarshalSchema data with
    | error msg =>
      exact Or.inl ⟨msg, fun s => by simp [JSONSchemaPropsOrArray.UnmarshalJSON, h1, hu, hbr, hbr2]⟩
    | ok sch =>
      exact Or.inr ⟨{ Schema := some sch },
        fun s => by simp [JSONSchemaPropsOrArray.UnmarshalJSON, h1, h2, hu, hbr, hbr2], Or.inr rfl⟩
  · by_cases h2 : firstByte data = lbracket
    · cases hu : lib.jsonUnmarshalSchemas data with
      | error msg =>
        exact Or.inl ⟨msg, fun s => by simp [JSONSchemaPropsOrArray.UnmarshalJSON, h1, h2, hu, hbr, hbr2]⟩
      | ok l =>
        exact Or.inr ⟨{ JSONSchemas := l },
          fun s => by simp [JSONSchemaPropsOrArray.UnmarshalJSON, h1, h2, hu, hbr, hbr2], Or.inl rfl⟩
    · exact Or.inr ⟨{}, fun s => by simp [JSONSchemaPropsOrArray.UnmarshalJSON, h1, h2, hbr, hbr2],
        Or.inl rfl⟩

/-- Shape of `JSONSchemaPropsOrStringArray.UnmarshalJSON` on an input: for
every receiver it fails with one and the same library error and returns the
receiver, or for every receiver it succeeds with one and the same value, which
has a nil Schema or a nil sequence. -/
theorem orStringArray_unmarshal_shape (lib : Codec JSONSchemaProps Obj) (data : List Byte) :
    (∃ msg, ∀ s,
        JSONSchemaPropsOrStringArray.UnmarshalJSON lib s data = (s, some (Error.lib msg)))
    ∨ (∃ v, (∀ s, JSONSchemaPropsOrStringArray.UnmarshalJSON lib s data = (v, none))
        ∧ (v.Schema = none ∨ v.Property = none)) := by
  have hbr : lbrace ≠ lbracket := by decide
  have hbr2 : lbracket ≠ lbrace := by decide
  by_cases h1 : firstByte data = lbrace
  · have h2 : firstByte data ≠ lbracket := by rw [h1]; decide
    cases hu : lib.jsonUnmarshalSchema data with
    | error msg =>
      exact Or.inl ⟨msg, fun s => by simp [JSONSchemaPropsOrStringArray.UnmarshalJSON, h1, hu, hbr, hbr2]⟩
    | ok sch =>
      exact Or.inr ⟨{ Schema := some sch },
        fun s => by simp [JSONSchemaPropsOrStringArray.UnmarshalJSON, h1, h2, hu, hbr, hbr2], Or.inr rfl⟩
  · by_cases h2 : firstByte data = lbracket
    · cases hu : lib.jsonUnmarshalStrings data with
      | error msg =>
        exact Or.inl ⟨msg,
          fun s => by simp [JSONSchemaPropsOrStringArray.UnmarshalJSON, h1, h2, hu, hbr, hbr2]⟩
      | ok l =>
        exact Or.inr ⟨{ Property := l },
          fun s => by simp [JSONSchemaPropsOrStringArray.UnmarshalJSON, h1, h2, hu, hbr, hbr2], Or.inl rfl⟩
    · exact Or.inr ⟨{},
        fun s => by simp [JSONSchemaPropsOrStringArray.UnmarshalJSON, h1, h2, hbr, hbr2], Or.inl rfl⟩

/-- Shape of `JSONSchemaPropsOrBool.UnmarshalJSON` on an input: for every
receiver it fails with one and the same error and returns the receiver, or for
every receiver it succeeds with one and the same value, in which a non-nil
Schema comes with Allows = true. -/
theorem orBool_unmarshal_shape (lib : Codec JSONSchemaProps Obj) (data : List Byte) :
    (∃ err, ∀ s, JSONSchemaPropsOrBool.UnmarshalJSON lib s data = (s, some err))
    ∨ (∃ v, (∀ s, JSONSchemaPropsOrBool.UnmarshalJSON lib s data = (v, none))
        ∧ (v.Schema ≠ none → v.Allows = true)) := by
  rcases data with _ | ⟨b, rest⟩
  · exact Or.inr ⟨{}, fun s => by simp [JSONSchemaPropsOrBool.UnmarshalJSON], by simp⟩
  · by_cases hb : b = lbrace
    · subst hb
      cases hu : lib.jsonUnmarshalSchema (lbrace :: rest) with
      | error msg =>
        exact Or.inl ⟨Error.lib msg,
          fun s => by simp [JSONSchemaPropsOrBool.UnmarshalJSON, hu]⟩
      | ok sch =>
        exact Or.inr ⟨{ Allows := true, Schema := some sch },
          fun s => by simp [JSONSchemaPropsOrBool.UnmarshalJSON, hu], by simp⟩
    · by_cases ht : b :: rest = trueBytes
      · exact Or.inr ⟨{ Allows := true },
          fun s => by simp [JSONSchemaPropsOrBool.UnmarshalJSON, ht, trueBytes, lbrace],
          by simp⟩
      · by_cases hf : b :: rest = falseBytes
        · exact Or.inr ⟨{ Allows := false },
            fun s => by
              simp [JSONSchemaPropsOrBool.UnmarshalJSON, hf, trueBytes, falseBytes, lbrace],
            by simp⟩
        · exact Or.inl ⟨Error.new "boolean or JSON schema expected",
            fun s => by simp [JSONSchemaPropsOrBool.UnmarshalJSON, hb, ht, hf]⟩

/-- C11: `JSON.UnmarshalJSON` returns a nil error on every input, and on every
input that is non-empty and not exactly the four bytes null the payload `Raw`
afterwards is the input, byte for byte, whatever the receiver held and whether
or not the input is well-formed JSON. -/
theorem json_unmarshal_verbatim (s : JSON) (data : List Byte) :
    (JSON.UnmarshalJSON s data).2 = none
    ∧ (data ≠ [] → data ≠ nullBytes → (JSON.UnmarshalJSON s data).1.Raw = data) := by
  unfold JSON.UnmarshalJSON
  constructor
  · split <;> rfl
  · intro h1 h2
    have hlen : data.length > 0 := List.length_pos.mpr h1
    simp [hlen, h2]

/-- C11 at the five-byte input made of a blank and the text null, and at the
malformed one-byte input with the object-opening byte alone: both are stored
as they are, with a nil error. -/
theorem json_unmarshal_verbatim_sample :
    JSON.UnmarshalJSON { Raw := [49] } blankNullBytes = ({ Raw := blankNullBytes }, none)
    ∧ (JSON.UnmarshalJSON { Raw := [] } [lbrace]).1.Raw = [lbrace] :=
  ⟨Prod.ext
      ((JSON.mk.injEq _ _).mpr
        ((json_unmarshal_verbatim { Raw := [49] } blankNullBytes).2 (by decide) (by decide)))
      (json_unmarshal_verbatim { Raw := [49] } blankNullBytes).1,
    (json_unmarshal_verbatim { Raw := [] } [lbrace]).2 (by decide) (by decide)⟩

/-- C12 at the empty payload: `JSON.MarshalJSON` returns exactly the bytes null
with a nil error, while `JSON.MarshalYAML` returns, with a nil error, the Go
string "null": a value of dynamic type string with four characters, not a nil
value. -/
theorem json_marshal_empty_payload (lib : Codec JSONSchemaProps Obj) :
    JSON.MarshalJSON lib { Raw := [] } = (nullBytes, none)
    ∧ JSON.MarshalYAML lib { Raw := [] } = (Value.str "null", none)
    ∧ (JSON.MarshalYAML lib { Raw := [] }).1 ≠ Value.schema none := by
  refine ⟨by simp [JSON.MarshalJSON], by simp [JSON.MarshalYAML], ?_⟩
  simp [JSON.MarshalYAML]

/-- C13: for every `JSON` value with a non-empty payload, when the payload
fails to parse as a generic value `MarshalJSON` returns both the bytes null
and the parser's error; when it parses, `MarshalJSON` returns what the
encoding of the parsed value returns, which is the encoded bytes with a nil
error whenever the encoder reports none. -/
theorem json_marshal_nonempty (lib : Codec JSONSchemaProps Obj) (s : JSON)
    (hne : s.Raw ≠ []) :
    (∀ msg, lib.jsonUnmarshalObj s.Raw = .error msg →
      JSON.MarshalJSON lib s = (nullBytes, some (Error.lib msg)))
    ∧ (∀ obj, lib.jsonUnmarshalObj s.Raw = .ok obj →
      JSON.MarshalJSON lib s = fromLib (lib.jsonMarshalObj obj)
      ∧ ((lib.jsonMarshalObj obj).2 = none →
          JSON.MarshalJSON lib s = ((lib.jsonMarshalObj obj).1, none))) := by
  have hlen : s.Raw.length > 0 := List.length_pos.mpr hne
  refine ⟨fun msg hu => ?_, fun obj hu => ⟨?_, fun hm => ?_⟩⟩
  · simp [JSON.MarshalJSON, hlen, hu]
  · simp [JSON.MarshalJSON, hlen, hu]
  · simp [JSON.MarshalJSON, hlen, hu, fromLib, hm]

/-- C13 at the sample codec: the payload maybe does not parse and gives the
bytes null together with the parser's error; the payload 1 parses and gives
its encoding with a nil error. -/
theorem json_marshal_nonempty_sample :
    JSON.MarshalJSON sampleCodec { Raw := maybeBytes }
      = (nullBytes, some (Error.lib "invalid character"))
    ∧ JSON.MarshalJSON sampleCodec { Raw := [49] } = ([49], none) :=
  ⟨(json_marshal_nonempty sampleCodec { Raw := maybeBytes } (by decide)).1
      "invalid character" rfl,
    ((json_marshal_nonempty sampleCodec { Raw := [49] } (by decide)).2 1 rfl).2 rfl⟩

/-- C14: decode of the three union types discards the previous state. For
every input on which `UnmarshalJSON` succeeds from one receiver, it returns
the same pair (value, nil error) from any other receiver: the result is a
function of the input alone. -/
theorem unmarshal_discards_receiver (lib : Codec JSONSchemaProps Obj) (data : List Byte)
    (s1 t1 : JSONSchemaPropsOrArray JSONSchemaProps)
    (s2 t2 : JSONSchemaPropsOrBool JSONSchemaProps)
    (s3 t3 : JSONSchemaPropsOrStringArray JSONSchemaProps) :
    ((JSONSchemaPropsOrArray.UnmarshalJSON lib s1 data).2 = none →
      JSONSchemaPropsOrArray.UnmarshalJSON lib t1 data
        = JSONSchemaPropsOrArray.UnmarshalJSON lib s1 data)
    ∧ ((JSONSchemaPropsOrBool.UnmarshalJSON lib s2 data).2 = none →
      JSONSchemaPropsOrBool.UnmarshalJSON lib t2 data
        = JSONSchemaPropsOrBool.UnmarshalJSON lib s2 data)
    ∧ ((JSONSchemaPropsOrStringArray.UnmarshalJSON lib s3 data).2 = none →
      JSONSchemaPropsOrStringArray.UnmarshalJSON lib t3 data
        = JSONSchemaPropsOrStringArray.UnmarshalJSON lib s3 data) := by
  refine ⟨fun h => ?_, fun h => ?_, fun h => ?_⟩
  · rcases orArray_unmarshal_shape lib data with ⟨msg, hs⟩ | ⟨v, hs, _⟩
    · rw [hs s1] at h
      exact absurd h (by simp)
    · rw [hs t1, hs s1]
  · rcases orBool_unmarshal_shape lib data with ⟨err, hs⟩ | ⟨v, hs, _⟩
    · rw [hs s2] at h
      exact absurd h (by simp)
    · rw [hs t2, hs s2]
  · rcases orStringArray_unmarshal_shape lib data with ⟨msg, hs⟩ | ⟨v, hs, _⟩
    · rw [hs s3] at h
      exact absurd h (by simp)
    · rw [hs t3, hs s3]

/-- C14 at the sample codec and the text true, respectively the array text of
"a" and "b": a zero-value receiver and a populated receiver end in the same
value. -/
theorem unmarshal_discards_receiver_sample :
    JSONSchemaPropsOrBool.UnmarshalJSON sampleCodec
        { Allows := false, Schema := some .typeString } trueBytes
      = JSONSchemaPropsOrBool.UnmarshalJSON sampleCodec { } trueBytes
    ∧ JSONSchemaPropsOrStringArray.UnmarshalJSON sampleCodec
        { Schema := some .typeString, Property := some ["c"] } abArrayBytes
      = JSONSchemaPropsOrStringArray.UnmarshalJSON sampleCodec { } abArrayBytes :=
  ⟨(unmarshal_discards_receiver sampleCodec trueBytes
      { } { } { } { Allows := false, Schema := some .typeString } { } { }).2.1 rfl,
   (unmarshal_discards_receiver sampleCodec abArrayBytes
      { } { } { } { } { } { Schema := some .typeString, Property := some ["c"] }).2.2 rfl⟩

/-- C15: variant invariant after decode. A value produced by a successful
`UnmarshalJSON` of `JSONSchemaPropsOrArray` or `JSONSchemaPropsOrStringArray`
never has both a non-nil Schema and a non-empty sequence, and one produced by a
successful `UnmarshalJSON` of `JSONSchemaPropsOrBool` has Allows = true
whenever its Schema is non-nil. -/
theorem unmarshal_variant_invariant (lib : Codec JSONSchemaProps Obj) (data : List Byte)
    (s1 : JSONSchemaPropsOrArray JSONSchemaProps)
    (s2 : JSONSchemaPropsOrBool JSONSchemaProps)
    (s3 : JSONSchemaPropsOrStringArray JSONSchemaProps) :
    ((JSONSchemaPropsOrArray.UnmarshalJSON lib s1 data).2 = none →
      ¬ ((JSONSchemaPropsOrArray.UnmarshalJSON lib s1 data).1.Schema ≠ none
        ∧ 0 < len (JSONSchemaPropsOrArray.UnmarshalJSON lib s1 data).1.JSONSchemas))
    ∧ ((JSONSchemaPropsOrStringArray.UnmarshalJSON lib s3 data).2 = none →
      ¬ ((JSONSchemaPropsOrStringArray.UnmarshalJSON lib s3 data).1.Schema ≠ none
        ∧ 0 < len (JSONSchemaPropsOrStringArray.UnmarshalJSON lib s3 data).1.Property))
    ∧ ((JSONSchemaPropsOrBool.UnmarshalJSON lib s2 data).2 = none →
      (JSONSchemaPropsOrBool.UnmarshalJSON lib s2 data).1.Schema ≠ none →
      (JSONSchemaPropsOrBool.UnmarshalJSON lib s2 data).1.Allows = true) := by
  refine ⟨fun h => ?_, fun h => ?_, fun h => ?_⟩
  · rcases orArray_unmarshal_shape lib data with ⟨msg, hs⟩ | ⟨v, hs, hv⟩
    · rw [hs s1] at h
      exact absurd h (by simp)
    · rw [hs s1]
      rintro ⟨h1, h2⟩
      rcases hv with hv | hv
      · exact h1 hv
      · simp [hv, len] at h2
  · rcases orStringArray_unmarshal_shape lib data with ⟨msg, hs⟩ | ⟨v, hs, hv⟩
    · rw [hs s3] at h
      exact absurd h (by simp)
    · rw [hs s3]
      rintro ⟨h1, h2⟩
      rcases hv with hv | hv
      · exact h1 hv
      · simp [hv, len] at h2
  · rcases orBool_unmarshal_shape lib data with ⟨err, hs⟩ | ⟨v, hs, hv⟩
    · rw [hs s2] at h
      exact absurd h (by simp)
    · rw [hs s2]
      exact hv

/-- C15 at the sample codec and the object text with type "string", decoded
into a `JSONSchemaPropsOrBool` receiver that held (Allows = false, nil): the
result has the schema and Allows = true. -/
theorem unmarshal_variant_invariant_sample :
    JSONSchemaPropsOrBool.UnmarshalJSON sampleCodec { } typeStringBytes
      = ({ Allows := true, Schema := some .typeString }, none)
    ∧ (JSONSchemaPropsOrBool.UnmarshalJSON sampleCodec { } typeStringBytes).1.Allows = true :=
  ⟨rfl, (unmarshal_variant_invariant sampleCodec typeStringBytes { } { } { }).2.2 rfl
    (by decide)⟩

/-- C16 at a value with Allows = true and the schema with type "string":
`JSONSchemaPropsOrBool.MarshalYAML` returns the bytes that `yaml.Marshal`
produced for the schema (here the thirteen bytes of the line type: string),
not the schema itself, whereas the rule of the specification and the two
sibling methods `JSONSchemaPropsOrArray.MarshalYAML` and
`JSONSchemaPropsOrStringArray.MarshalYAML` hand over the schema. -/
theorem orBool_marshalYAML_hands_bytes :
    JSONSchemaPropsOrBool.MarshalYAML sampleCodec
        { Allows := true, Schema := some .typeString }
      = (Value.bytes [116, 121, 112, 101, 58, 32, 115, 116, 114, 105, 110, 103, 10], none)
    ∧ (JSONSchemaPropsOrBool.MarshalYAMLSpec
        { Allows := true, Schema := some .typeString }
          : Value SampleSchema Nat × Option Error)
      = (Value.schema (some .typeString), none)
    ∧ (JSONSchemaPropsOrArray.MarshalYAML { Schema := some .typeString }
          : Value SampleSchema Nat × Option Error)
      = (Value.schema (some .typeString), none)
    ∧ (JSONSchemaPropsOrStringArray.MarshalYAML { Schema := some .typeString }
          : Value SampleSchema Nat × Option Error)
      = (Value.schema (some .typeString), none)
    ∧ JSONSchemaPropsOrBool.MarshalYAML sampleCodec
        { Allows := true, Schema := some .typeString }
      ≠ JSONSchemaPropsOrBool.MarshalYAMLSpec
        { Allows := true, Schema := some .typeString } := by
  refine ⟨by decide, by decide, by decide, by decide, by decide⟩

/-- C16, the part the code satisfies and the extent of the divergence, for
every codec: with a nil Schema `JSONSchemaPropsOrBool.MarshalYAML` agrees with
the rule of the specification (the boolean false when Allows is false, the
boolean true when Allows is true); with a non-nil Schema its first result is
always a byte slice, for both values of Allows, and never the schema. -/
theorem orBool_marshalYAML_compared (lib : Codec JSONSchemaProps Obj)
    (allows : Bool) (sch : JSONSchemaProps) :
    JSONSchemaPropsOrBool.MarshalYAML lib { Allows := allows, Schema := none }
      = JSONSchemaPropsOrBool.MarshalYAMLSpec { Allows := allows, Schema := none }
    ∧ JSONSchemaPropsOrBool.MarshalYAML lib { Allows := allows, Schema := none }
      = (Value.bool allows, none)
    ∧ (JSONSchemaPropsOrBool.MarshalYAML lib { Allows := allows, Schema := some sch }).1
      = Value.bytes (lib.yamlMarshalSchema (some sch)).1
    ∧ (JSONSchemaPropsOrBool.MarshalYAML lib { Allows := allows, Schema := some sch }).1
      ≠ (JSONSchemaPropsOrBool.MarshalYAMLSpec { Allows := allows, Schema := some sch }
          : Value JSONSchemaProps Obj × Option Error).1 := by
  refine ⟨?_, ?_, ?_, ?_⟩
  · cases allows <;> simp [JSONSchemaPropsOrBool.MarshalYAML, JSONSchemaPropsOrBool.MarshalYAMLSpec]
  · cases allows <;> simp [JSONSchemaPropsOrBool.MarshalYAML]
  · simp [JSONSchemaPropsOrBool.MarshalYAML, fromLib]
  · simp [JSONSchemaPropsOrBool.MarshalYAML, JSONSchemaPropsOrBool.MarshalYAMLSpec, fromLib]

/-- C17: atomicity on failure. Whenever `UnmarshalJSON` of
`JSONSchemaPropsOrArray`, `JSONSchemaPropsOrBool` or
`JSONSchemaPropsOrStringArray` returns a non-nil error, the receiver's value
after the call is the value it had before the call. -/
theorem unmarshal_error_keeps_receiver (lib : Codec JSONSchemaProps Obj) (data : List Byte)
    (s1 : JSONSchemaPropsOrArray JSONSchemaProps)
    (s2 : JSONSchemaPropsOrBool JSONSchemaProps)
    (s3 : JSONSchemaPropsOrStringArray JSONSchemaProps) :
    ((JSONSchemaPropsOrArray.UnmarshalJSON lib s1 data).2 ≠ none →
      (JSONSchemaPropsOrArray.UnmarshalJSON lib s1 data).1 = s1)
    ∧ ((JSONSchemaPropsOrBool.UnmarshalJSON lib s2 data).2 ≠ none →
      (JSONSchemaPropsOrBool.UnmarshalJSON lib s2 data).1 = s2)
    ∧ ((JSONSchemaPropsOrStringArray.UnmarshalJSON lib s3 data).2 ≠ none →
      (JSONSchemaPropsOrStringArray.UnmarshalJSON lib s3 data).1 = s3) := by
  refine ⟨fun h => ?_, fun h => ?_, fun h => ?_⟩
  · rcases orArray_unmarshal_shape lib data with ⟨msg, hs⟩ | ⟨v, hs, _⟩
    · rw [hs s1]
    · rw [hs s1] at h
      exact absurd rfl h
  · rcases orBool_unmarshal_shape lib data with ⟨err, hs⟩ | ⟨v, hs, _⟩
    · rw [hs s2]
    · rw [hs s2] at h
      exact absurd rfl h
  · rcases orStringArray_unmarshal_shape lib data with ⟨msg, hs⟩ | ⟨v, hs, _⟩
    · rw [hs s3]
    · rw [hs s3] at h
      exact absurd rfl h

/-- C17 at the sample codec: the input maybe fails for
`JSONSchemaPropsOrBool` and the truncated one-element array text (the
array-opening byte and the object-opening byte) fails for
`JSONSchemaPropsOrArray`; both populated receivers are handed back as they
were. -/
theorem unmarshal_error_keeps_receiver_sample :
    (JSONSchemaPropsOrBool.UnmarshalJSON sampleCodec
        { Allows := true, Schema := some .typeString } maybeBytes).1
      = { Allows := true, Schema := some .typeString }
    ∧ (JSONSchemaPropsOrArray.UnmarshalJSON sampleCodec
        { Schema := none, JSONSchemas := some [.empty] } [lbracket, lbrace]).1
      = { Schema := none, JSONSchemas := some [.empty] } :=
  ⟨(unmarshal_error_keeps_receiver sampleCodec maybeBytes
      { } { Allows := true, Schema := some .typeString } { }).2.1 (by decide),
   (unmarshal_error_keeps_receiver sampleCodec [lbracket, lbrace]
      { Schema := none, JSONSchemas := some [.empty] } { } { }).1 (by decide)⟩

/-- C18: round trip on the non-Schema alternatives. For every boolean `b`,
decoding what `MarshalJSON` returns for (nil Schema, Allows = `b`) succeeds
with (nil Schema, Allows = `b`). For every non-empty string list `l` that the
library round-trips through a JSON array text, decoding what `MarshalJSON`
returns for a value with `Property = l` succeeds with `Property = l` and a nil
Schema, whether or not the encoded value also carried a Schema. Encoding a
`JSONSchemaPropsOrStringArray` with nothing populated gives the bytes null, and
decoding them gives the value with nothing populated. The prior receivers are
arbitrary. -/
theorem non_schema_round_trip (lib : Codec JSONSchemaProps Obj)
    (l : List String) (hl : l ≠ []) (h : StringsRoundTrip lib l)
    (b : Bool) (schema : Option JSONSchemaProps)
    (ps : Slice String) (hps : len ps = 0)
    (r2 : JSONSchemaPropsOrBool JSONSchemaProps)
    (r3 : JSONSchemaPropsOrStringArray JSONSchemaProps) :
    ((JSONSchemaPropsOrBool.MarshalJSON lib { Allows := b, Schema := none }).2 = none
      ∧ JSONSchemaPropsOrBool.UnmarshalJSON lib r2
          (JSONSchemaPropsOrBool.MarshalJSON lib { Allows := b, Schema := none }).1
        = ({ Allows := b, Schema := none }, none))
    ∧ ((JSONSchemaPropsOrStringArray.MarshalJSON lib
          { Schema := schema, Property := some l }).2 = none
      ∧ JSONSchemaPropsOrStringArray.UnmarshalJSON lib r3
          (JSONSchemaPropsOrStringArray.MarshalJSON lib
            { Schema := schema, Property := some l }).1
        = ({ Schema := none, Property := some l }, none))
    ∧ (JSONSchemaPropsOrStringArray.MarshalJSON lib { Schema := none, Property := ps }
        = (nullBytes, none)
      ∧ JSONSchemaPropsOrStringArray.UnmarshalJSON lib r3
          (JSONSchemaPropsOrStringArray.MarshalJSON lib { Schema := none, Property := ps }).1
        = ({ Schema := none, Property := none }, none)) := by
  obtain ⟨rest, hm, hne, hu⟩ := h
  obtain ⟨c, rest, rfl⟩ := List.exists_cons_of_ne_nil hne
  have hbr : lbracket ≠ lbrace := by decide
  have hlen : 0 < len (some l) := List.length_pos.mpr hl
  have hn1 : firstByte nullBytes ≠ lbrace := by decide
  have hn2 : firstByte nullBytes ≠ lbracket := by decide
  refine ⟨?_, ?_, ?_⟩
  · cases b <;>
      simp [JSONSchemaPropsOrBool.MarshalJSON, JSONSchemaPropsOrBool.UnmarshalJSON,
        trueBytes, falseBytes, lbrace]
  · simp [JSONSchemaPropsOrStringArray.MarshalJSON, JSONSchemaPropsOrStringArray.UnmarshalJSON,
      hlen, fromLib, hm, firstByte_cons_cons, hbr, hu]
  · simp [JSONSchemaPropsOrStringArray.MarshalJSON, JSONSchemaPropsOrStringArray.UnmarshalJSON,
      hps, hn1, hn2]

/-- C18 at the sample codec and the strings "a" and "b", encoded from a value
that also carried a schema, with populated prior receivers. -/
theorem non_schema_round_trip_sample :
    ["a", "b"] ≠ ([] : List String) ∧ StringsRoundTrip sampleCodec ["a", "b"]
    ∧ len (some [] : Slice String) = 0
    ∧ JSONSchemaPropsOrBool.UnmarshalJSON sampleCodec
        { Allows := true, Schema := some .empty } falseBytes
      = ({ Allows := false, Schema := none }, none)
    ∧ JSONSchemaPropsOrStringArray.UnmarshalJSON sampleCodec
        { Schema := some .empty, Property := some ["c"] } abArrayBytes
      = ({ Schema := none, Property := some ["a", "b"] }, none)
    ∧ JSONSchemaPropsOrStringArray.UnmarshalJSON sampleCodec
        { Schema := some .empty, Property := some ["c"] } nullBytes
      = ({ Schema := none, Property := none }, none) :=
  have hrt : StringsRoundTrip sampleCodec ["a", "b"] :=
    ⟨abArrayBytes.tail, rfl, by decide, rfl⟩
  have t := non_schema_round_trip sampleCodec ["a", "b"] (by decide) hrt false
    (some SampleSchema.typeString) (some []) rfl
    { Allows := true, Schema := some .empty }
    { Schema := some .empty, Property := some ["c"] }
  ⟨by decide, hrt, rfl, t.1.2, t.2.1.2, t.2.2.2⟩

/-- The explicit index read of the discriminant never fails: it gives the
discriminant of the definition with the bound in scope. -/
theorem firstByteChecked_eq (data : List Byte) :
    firstByteChecked data = some (firstByte data) := by
  rcases data with _ | ⟨x, _ | ⟨y, rest⟩⟩ <;> simp [firstByteChecked, firstByte, index]

/-- C19: decode is total and never indexes out of range. On every byte input
(the empty input and one-byte inputs included) and every receiver, each of the
three union decoders written with a failing index expression returns a result,
never the out-of-range panic, and that result is the one of the decoder
written with the bound in scope: `data[0]` is read only after its length
check has passed. -/
theorem unmarshal_index_in_range (lib : Codec JSONSchemaProps Obj) (data : List Byte)
    (s1 : JSONSchemaPropsOrArray JSONSchemaProps)
    (s2 : JSONSchemaPropsOrBool JSONSchemaProps)
    (s3 : JSONSchemaPropsOrStringArray JSONSchemaProps) :
    JSONSchemaPropsOrArray.UnmarshalJSONChecked lib s1 data
        = some (JSONSchemaPropsOrArray.UnmarshalJSON lib s1 data)
    ∧ JSONSchemaPropsOrBool.UnmarshalJSONChecked lib s2 data
        = some (JSONSchemaPropsOrBool.UnmarshalJSON lib s2 data)
    ∧ JSONSchemaPropsOrStringArray.UnmarshalJSONChecked lib s3 data
        = some (JSONSchemaPropsOrStringArray.UnmarshalJSON lib s3 data) := by
  have hbr : lbrace ≠ lbracket := by decide
  have hbr2 : lbracket ≠ lbrace := by decide
  refine ⟨?_, ?_, ?_⟩
  · unfold JSONSchemaPropsOrArray.UnmarshalJSONChecked JSONSchemaPropsOrArray.UnmarshalJSON
    rw [firstByteChecked_eq]
    by_cases h1 : firstByte data = lbrace
    · cases hu : lib.jsonUnmarshalSchema data <;> simp [h1, hu, hbr]
    · by_cases h2 : firstByte data = lbracket
      · cases hu : lib.jsonUnmarshalSchemas data <;> simp [h1, h2, hu, hbr2]
      · simp [h1, h2]
  · unfold JSONSchemaPropsOrBool.UnmarshalJSONChecked JSONSchemaPropsOrBool.UnmarshalJSON
    rcases data with _ | ⟨b, rest⟩
    · simp
    · by_cases hb : b = lbrace
      · subst hb
        cases hu : lib.jsonUnmarshalSchema (lbrace :: rest) <;> simp [index, hu]
      · by_cases ht : b :: rest = trueBytes
        · simp [index, ht, trueBytes, lbrace]
        · by_cases hf : b :: rest = falseBytes
          · simp [index, hf, trueBytes, falseBytes, lbrace]
          · simp [index, hb, ht, hf]
  · unfold JSONSchemaPropsOrStringArray.UnmarshalJSONChecked
      JSONSchemaPropsOrStringArray.UnmarshalJSON
    rw [firstByteChecked_eq]
    by_cases h1 : firstByte data = lbrace
    · cases hu : lib.jsonUnmarshalSchema data <;> simp [h1, hu, hbr]
    · by_cases h2 : firstByte data = lbracket
      · cases hu : lib.jsonUnmarshalStrings data <;> simp [h1, h2, hu, hbr2]
      · simp [h1, h2]

/-- C19 at the empty input and at the one-byte input with the object-opening
byte alone, for the sample codec: no decoder panics. -/
theorem unmarshal_index_in_range_sample :
    JSONSchemaPropsOrBool.UnmarshalJSONChecked sampleCodec { } []
      = some ({ Allows := false, Schema := none }, none)
    ∧ JSONSchemaPropsOrArray.UnmarshalJSONChecked sampleCodec { } [lbrace]
      = some ({ Schema := none, JSONSchemas := none }, none)
    ∧ JSONSchemaPropsOrBool.UnmarshalJSONChecked sampleCodec { } [lbrace]
      = some ({ }, some (Error.lib "unexpected end of JSON input")) :=
  ⟨(unmarshal_index_in_range sampleCodec [] { } { } { }).2.1,
   (unmarshal_index_in_range sampleCodec [lbrace] { } { } { }).1,
   (unmarshal_index_in_range sampleCodec [lbrace] { } { } { }).2.1⟩

end Types
